import Mathlib

/-!
Verification of the curation and selection pipeline of the sci-fi-inf backend.

Each Python function named in the claims is translated into an executable
Lean definition over explicit data:

* `calculate_paper_score` from `app/cron/tasks/curate.py`
* `weighted_select` and `run_podcast_job` from `app/cron/tasks/podcast.py`
* `rank_papers` from `app/services/curator.py` (`PaperCurator.rank_papers`)
* `process_and_store` and `reconstruct_abstract` from `app/services/harvester.py`
* `track_cron_run` / `CronRunTracker.finish` from `app/cron/tracking.py`
* `filter_ai_papers` and `AI_KEYWORDS` from `app/cron/tasks/curate_ai.py`

Real numbers are modelled by `ℚ`, dates by `ℤ` (days), Python `None` by
`Option`, raised exceptions by `Except`, and the database by explicit lists
threaded through the functions.  The global random stream consumed by
`random.choices` is modelled by an oracle `rand : ℕ → ℕ` giving the index
drawn at each step; `random.choices(range(n), ...)` only ever returns an
index `< n`, which appears as a hypothesis on the oracle where needed.
-/

/-- Round half to even (Python `round`) for rationals, result an integer. -/
def roundHalfEven (x : ℚ) : ℤ :=
  let f : ℤ := ⌊x⌋
  let r : ℚ := x - f
  if r < 1/2 then f
  else if 1/2 < r then f + 1
  else if f % 2 = 0 then f else f + 1

/-- Python `round(x, 2)` on an exact rational value. -/
def round2 (x : ℚ) : ℚ := (roundHalfEven (x * 100) : ℚ) / 100

theorem roundHalfEven_nonneg {x : ℚ} (hx : 0 ≤ x) : 0 ≤ roundHalfEven x := by
  have hf : (0 : ℤ) ≤ ⌊x⌋ := Int.floor_nonneg.mpr hx
  unfold roundHalfEven
  dsimp only
  split
  · exact hf
  · split
    · omega
    · split <;> omega

theorem roundHalfEven_le {x : ℚ} {B : ℤ} (hx : x ≤ (B : ℚ)) : roundHalfEven x ≤ B := by
  have hf : ⌊x⌋ ≤ B := by
    have := Int.floor_le_floor hx
    simpa using this
  have hfx : (⌊x⌋ : ℚ) ≤ x := Int.floor_le x
  unfold roundHalfEven
  dsimp only
  split
  · exact hf
  · rename_i h1
    push_neg at h1
    split
    · rename_i h2
      have hq : ((⌊x⌋ : ℚ)) < (B : ℚ) := by linarith
      have : ⌊x⌋ < B := by exact_mod_cast hq
      omega
    · rename_i h2
      push_neg at h2
      have hr : x - (⌊x⌋ : ℚ) = 1/2 := le_antisymm h2 h1
      split
      · exact hf
      · have hq : ((⌊x⌋ : ℚ)) < (B : ℚ) := by linarith
        have : ⌊x⌋ < B := by exact_mod_cast hq
        omega

theorem round2_nonneg {x : ℚ} (hx : 0 ≤ x) : 0 ≤ round2 x := by
  unfold round2
  have h : (0 : ℚ) ≤ (roundHalfEven (x * 100) : ℚ) := by
    exact_mod_cast roundHalfEven_nonneg (by positivity)
  positivity

theorem round2_le {x : ℚ} {B : ℤ} (hx : x ≤ (B : ℚ)) : round2 x ≤ (B : ℚ) := by
  unfold round2
  have h : roundHalfEven (x * 100) ≤ B * 100 := by
    apply roundHalfEven_le
    push_cast
    linarith
  have h' : (roundHalfEven (x * 100) : ℚ) ≤ ((B : ℚ) * 100) := by exact_mod_cast h
  linarith

/-!
## Scoring Function — `calculate_paper_score` (`app/cron/tasks/curate.py`)

The input models the raw OpenAlex `paper : dict` fields the function reads:
`cited_by_count` and `fwci` (absent or `null` → `Option`, the code applies
`or 0`), `indexed_in` (a list of index names), the truthiness of
`open_access["is_oa"]`, and `publication_date`.  The publication date is
`none` when missing or empty (falsy), `some none` when present but not
ISO-parseable (`date.fromisoformat` raises `ValueError`), and
`some (some d)` when it parses to day number `d`.  `today` is the value of
`date.today()` as a day number.
-/

structure ScoreInput where
  cited_by_count : Option ℚ
  fwci : Option ℚ
  indexed_in : List String
  is_oa : Bool
  publication_date : Option (Option ℤ)
deriving DecidableEq, Repr

/-- Translation of `calculate_paper_score`, statement for statement. -/
def calculate_paper_score (today : ℤ) (paper : ScoreInput) : ℚ :=
  let cited_by := paper.cited_by_count.getD 0
  let citation_score := min (cited_by / 100) 1 * 25
  let fwci := paper.fwci.getD 0
  let fwci_score := min (fwci / 5) 1 * 25
  let indexed_score : ℚ :=
    if "pubmed" ∈ paper.indexed_in then 5
    else if "scopus" ∈ paper.indexed_in ∨ "crossref" ∈ paper.indexed_in then 3
    else 0
  let oa_score : ℚ := if paper.is_oa then 5 else 0
  let recency_score : ℚ :=
    match paper.publication_date with
    | some (some pub_date) =>
        let days_ago : ℤ := today - pub_date
        if days_ago ≤ 2 then 25
        else if days_ago ≤ 7 then 25 * (1 - ((days_ago : ℚ) - 2) / 5)
        else 0
    | _ => 0
  round2 (citation_score + fwci_score + indexed_score + oa_score + recency_score)

/-- Citation component as the spec words it: `min(cited_by/100, 1.0) * 25`. -/
def citationComponent (paper : ScoreInput) : ℚ :=
  min (paper.cited_by_count.getD 0 / 100) 1 * 25

/-- Impact component as the spec words it: `min(fwci/5, 1.0) * 25`. -/
def impactComponent (paper : ScoreInput) : ℚ :=
  min (paper.fwci.getD 0 / 5) 1 * 25

/-- Indexing bonus: 5 for pubmed, else 3 for scopus or crossref, else 0. -/
def indexingBonus (paper : ScoreInput) : ℚ :=
  if "pubmed" ∈ paper.indexed_in then 5
  else if "scopus" ∈ paper.indexed_in ∨ "crossref" ∈ paper.indexed_in then 3
  else 0

/-- Open-access bonus: 5 if open access else 0. -/
def openAccessBonus (paper : ScoreInput) : ℚ :=
  if paper.is_oa then 5 else 0

/-- Recency component: 25 at age ≤ 2 days, linear decay to 0 through day 7. -/
def recencyComponent (today : ℤ) (paper : ScoreInput) : ℚ :=
  match paper.publication_date with
  | some (some pub_date) =>
      let days_ago : ℤ := today - pub_date
      if days_ago ≤ 2 then 25
      else if days_ago ≤ 7 then 25 * (1 - ((days_ago : ℚ) - 2) / 5)
      else 0
  | _ => 0

theorem citationComponent_bounds (p : ScoreInput) (h : 0 ≤ p.cited_by_count.getD 0) :
    0 ≤ citationComponent p ∧ citationComponent p ≤ 25 := by
  unfold citationComponent
  constructor
  · have : (0 : ℚ) ≤ min (p.cited_by_count.getD 0 / 100) 1 := by
      apply le_min (by positivity) (by norm_num)
    linarith
  · have : min (p.cited_by_count.getD 0 / 100) 1 ≤ 1 := min_le_right _ _
    linarith

theorem impactComponent_bounds (p : ScoreInput) (h : 0 ≤ p.fwci.getD 0) :
    0 ≤ impactComponent p ∧ impactComponent p ≤ 25 := by
  unfold impactComponent
  constructor
  · have : (0 : ℚ) ≤ min (p.fwci.getD 0 / 5) 1 := by
      apply le_min (by positivity) (by norm_num)
    linarith
  · have : min (p.fwci.getD 0 / 5) 1 ≤ 1 := min_le_right _ _
    linarith

theorem indexingBonus_bounds (p : ScoreInput) :
    0 ≤ indexingBonus p ∧ indexingBonus p ≤ 5 := by
  unfold indexingBonus
  split
  · norm_num
  · split <;> norm_num

theorem openAccessBonus_bounds (p : ScoreInput) :
    0 ≤ openAccessBonus p ∧ openAccessBonus p ≤ 5 := by
  unfold openAccessBonus
  split <;> norm_num

theorem recencyComponent_bounds (today : ℤ) (p : ScoreInput) :
    0 ≤ recencyComponent today p ∧ recencyComponent today p ≤ 25 := by
  unfold recencyComponent
  split
  · rename_i pub_date _
    dsimp only
    split
    · norm_num
    · split
      · rename_i h2 h7
        push_neg at h2
        constructor
        · have hd : ((today - pub_date : ℤ) : ℚ) ≤ 7 := by exact_mod_cast h7
          nlinarith
        · have hd : (2 : ℚ) < ((today - pub_date : ℤ) : ℚ) := by exact_mod_cast h2
          nlinarith
      · norm_num
  · norm_num

theorem calculate_paper_score_eq_sum (today : ℤ) (p : ScoreInput) :
    calculate_paper_score today p =
      round2 (citationComponent p + impactComponent p + indexingBonus p +
        openAccessBonus p + recencyComponent today p) := by
  rfl

/-- C1: the Scoring Function is pure and deterministic (a function of its
input only: equal inputs give equal outputs), its result is the sum of the
five specified components rounded to 2 decimals, the result lies in
[0, 100] for valid metadata (nonnegative citation count and fwci), and the
literal example — citation_count 120, fwci 3.0, indexed in pubmed, open
access, published yesterday — scores exactly 75.00. -/
theorem claim_C1_scoring (today : ℤ) (p : ScoreInput)
    (hc : 0 ≤ p.cited_by_count.getD 0) (hf : 0 ≤ p.fwci.getD 0) :
    (∀ p' : ScoreInput, p' = p → calculate_paper_score today p' = calculate_paper_score today p) ∧
    calculate_paper_score today p =
      round2 (citationComponent p + impactComponent p + indexingBonus p +
        openAccessBonus p + recencyComponent today p) ∧
    0 ≤ calculate_paper_score today p ∧ calculate_paper_score today p ≤ 100 ∧
    calculate_paper_score today
      { cited_by_count := some 120, fwci := some 3, indexed_in := ["pubmed"],
        is_oa := true, publication_date := some (some (today - 1)) } = 75 := by
  obtain ⟨hc0, hc25⟩ := citationComponent_bounds p hc
  obtain ⟨hf0, hf25⟩ := impactComponent_bounds p hf
  obtain ⟨hi0, hi5⟩ := indexingBonus_bounds p
  obtain ⟨ho0, ho5⟩ := openAccessBonus_bounds p
  obtain ⟨hr0, hr25⟩ := recencyComponent_bounds today p
  refine ⟨fun p' hp' => by rw [hp'], calculate_paper_score_eq_sum today p, ?_, ?_, ?_⟩
  · rw [calculate_paper_score_eq_sum]
    exact round2_nonneg (by linarith)
  · rw [calculate_paper_score_eq_sum]
    have : citationComponent p + impactComponent p + indexingBonus p +
        openAccessBonus p + recencyComponent today p ≤ ((100 : ℤ) : ℚ) := by
      push_cast
      linarith
    exact round2_le this
  · simp only [calculate_paper_score, sub_sub_cancel]
    norm_num [round2, roundHalfEven]

theorem claim_C1_scoring_witness :
    0 ≤ ((some (120 : ℚ)).getD 0) ∧ 0 ≤ ((some (3 : ℚ)).getD 0) ∧
    calculate_paper_score 10
      { cited_by_count := some 120, fwci := some 3, indexed_in := ["pubmed"],
        is_oa := true, publication_date := some (some 9) } = 75 := by
  have h := claim_C1_scoring 10
      { cited_by_count := some 120, fwci := some 3, indexed_in := ["pubmed"],
        is_oa := true, publication_date := some (some 9) }
      (by norm_num) (by norm_num)
  refine ⟨by norm_num, by norm_num, ?_⟩
  have h75 := h.2.2.2.2
  norm_num at h75
  exact h75

/-!
## Weighted Selector — `weighted_select` (`app/cron/tasks/podcast.py`)

`Paper` models the ORM row as read by the podcast task.  `category` holds
the value of `paper.metrics.get("category", "") if paper.metrics else ""`,
and `full_text` the truthiness of `paper.full_text`.  The `random.choices`
draw of one index per iteration is an oracle `rand : ℕ → ℕ` indexed by the
iteration number; the library guarantees the drawn index is below the
remaining pool size, which is a hypothesis where relevant.
-/

structure Paper where
  id : ℤ
  title : String
  category : String
  full_text : Bool
  is_selected : Bool
  is_used_in_episode : Bool
  publication_date : ℤ
deriving DecidableEq, Repr

instance : Inhabited Paper :=
  ⟨{ id := 0, title := "", category := "", full_text := false,
     is_selected := false, is_used_in_episode := false, publication_date := 0 }⟩

/-- The `CATEGORY_WEIGHTS` table of `podcast.py` (identical in `curate.py`). -/
def CATEGORY_WEIGHTS : List (String × ℚ) :=
  [("ai_tech", 15/100), ("health_medicine", 15/100), ("brain_mind", 12/100),
   ("climate_environment", 12/100), ("physics", 10/100), ("biology", 10/100),
   ("energy", 8/100), ("economics", 8/100), ("chemistry", 5/100),
   ("food_agriculture", 5/100)]

/-- `CATEGORY_WEIGHTS.get(category, 0.05)`. -/
def categoryWeight (category : String) : ℚ :=
  (CATEGORY_WEIGHTS.lookup category).getD (5/100)

/-- Weight of one paper: category base weight, doubled when full text is attached. -/
def paperWeight (paper : Paper) : ℚ :=
  let weight := categoryWeight paper.category
  if paper.full_text then weight * 2 else weight

/-- The sampling loop of `weighted_select`: `count` iterations, each drawing
one index from the remaining pool (`rand j` models the `random.choices`
draw of iteration `j`), moving that paper to the output and removing it and
its weight, with the two early `break`s of the source (empty pool, zero
weight total). -/
def wsLoop (rand : ℕ → ℕ) : ℕ → ℕ → List Paper → List ℚ → List Paper
  | 0, _, _, _ => []
  | c + 1, j, remaining_papers, remaining_weights =>
    match remaining_papers with
    | [] => []
    | p :: ps =>
      let total := remaining_weights.sum
      if total = 0 then []
      else
        let normalized := remaining_weights.map (fun w => w / total)
        let chosen_idx := rand j
        (p :: ps).getD chosen_idx default ::
          wsLoop rand c (j + 1) ((p :: ps).eraseIdx chosen_idx)
            (remaining_weights.eraseIdx chosen_idx)

/-- The same loop with the two `break` branches and the normalization
removed; used to state that those branches are unreachable. -/
def wsLoopNB (rand : ℕ → ℕ) : ℕ → ℕ → List Paper → List ℚ → List Paper
  | 0, _, _, _ => []
  | c + 1, j, remaining_papers, remaining_weights =>
    let chosen_idx := rand j
    remaining_papers.getD chosen_idx default ::
      wsLoopNB rand c (j + 1) (remaining_papers.eraseIdx chosen_idx)
        (remaining_weights.eraseIdx chosen_idx)

/-- Translation of `weighted_select(papers, count)`. -/
def weighted_select (rand : ℕ → ℕ) (papers : List Paper) (count : ℕ) : List Paper :=
  if papers.length ≤ count then papers
  else
    let weights := papers.map paperWeight
    wsLoop rand count 0 papers weights

theorem categoryWeight_ge (c : String) : 1/20 ≤ categoryWeight c := by
  unfold categoryWeight CATEGORY_WEIGHTS
  simp only [List.lookup]
  repeat' split
  all_goals simp_all
  all_goals norm_num

theorem paperWeight_ge (p : Paper) : 1/20 ≤ paperWeight p := by
  unfold paperWeight
  have h := categoryWeight_ge p.category
  dsimp only
  split
  · linarith
  · exact h

theorem perm_getD_cons_eraseIdx {α : Type _} [Inhabited α] (l : List α) (i : ℕ)
    (h : i < l.length) : List.Perm l (l.getD i default :: l.eraseIdx i) := by
  induction l generalizing i with
  | nil => simp at h
  | cons a t ih =>
    cases i with
    | zero => simp
    | succ n =>
      have h' : n < t.length := by simpa using h
      have step : List.Perm (a :: t) (a :: (t.getD n default :: t.eraseIdx n)) :=
        (ih n h').cons a
      refine step.trans ?_
      simpa [List.eraseIdx] using
        List.Perm.swap (t.getD n default) a (t.eraseIdx n)

theorem wsLoop_length_subperm (rand : ℕ → ℕ) :
    ∀ (c start : ℕ) (ps : List Paper) (ws : List ℚ),
      c ≤ ps.length → ws.length = ps.length → (∀ w ∈ ws, 0 < w) →
      (∀ j, j < c → rand (start + j) < ps.length - j) →
      (wsLoop rand c start ps ws).length = c ∧
        List.Subperm (wsLoop rand c start ps ws) ps := by
  intro c
  induction c with
  | zero =>
    intro start ps ws _ _ _ _
    exact ⟨rfl, List.nil_subperm⟩
  | succ c ih =>
    intro start ps ws hc hlen hw hr
    rcases ps with _ | ⟨p, pt⟩
    · simp at hc
    · have hne : ws ≠ [] := by
        intro h
        rw [h] at hlen
        simp at hlen
      have htot : 0 < ws.sum := List.sum_pos ws hw hne
      have hi : rand start < (p :: pt).length := by
        have h0 := hr 0 (Nat.succ_pos c)
        simpa using h0
      have hiw : rand start < ws.length := by
        rw [hlen]; exact hi
      have hlep : ((p :: pt).eraseIdx (rand start)).length = (p :: pt).length - 1 := by
        rw [List.length_eraseIdx, if_pos hi]
      have hlew : (ws.eraseIdx (rand start)).length = ws.length - 1 := by
        rw [List.length_eraseIdx, if_pos hiw]
      have hrec := ih (start + 1) ((p :: pt).eraseIdx (rand start))
        (ws.eraseIdx (rand start))
        (by rw [hlep]; simp only [List.length_cons] at hc ⊢; omega)
        (by rw [hlep, hlew, hlen])
        (fun w hwm => hw w ((List.eraseIdx_sublist ws (rand start)).subset hwm))
        (by
          intro j hj
          have hshift : start + 1 + j = start + (j + 1) := by omega
          have := hr (j + 1) (by omega)
          rw [hshift, hlep]
          simp only [List.length_cons] at this ⊢
          omega)
      rw [wsLoop]
      simp only [if_neg (ne_of_gt htot)]
      constructor
      · simp [hrec.1]
      · have h2 : List.Subperm
            ((p :: pt).getD (rand start) default ::
              wsLoop rand c (start + 1) ((p :: pt).eraseIdx (rand start))
                (ws.eraseIdx (rand start)))
            ((p :: pt).getD (rand start) default :: (p :: pt).eraseIdx (rand start)) :=
          (List.subperm_cons _).mpr hrec.2
        exact h2.trans (perm_getD_cons_eraseIdx (p :: pt) (rand start) hi).symm.subperm

/-- C2: if the pool is not larger than the target count, `weighted_select`
returns the pool unchanged (same list, no draw consumed); otherwise the
output has exactly `count` elements drawn from the pool without
replacement (a sub-permutation of the pool), hence pairwise distinct
whenever the pool has no duplicates.  The hypothesis on `rand` is the
`random.choices` guarantee that each drawn index is below the remaining
pool size. -/
theorem claim_C2_weighted_select (rand : ℕ → ℕ) (papers : List Paper) (count : ℕ) :
    (papers.length ≤ count → weighted_select rand papers count = papers) ∧
    ((∀ j, j < count → rand j < papers.length - j) → count < papers.length →
      (weighted_select rand papers count).length = count ∧
      List.Subperm (weighted_select rand papers count) papers ∧
      (papers.Nodup → (weighted_select rand papers count).Nodup)) := by
  constructor
  · intro hle
    unfold weighted_select
    rw [if_pos hle]
  · intro hr hlt
    have hsel : weighted_select rand papers count =
        wsLoop rand count 0 papers (papers.map paperWeight) := by
      unfold weighted_select
      rw [if_neg (not_le.mpr hlt)]
    have hw : ∀ w ∈ papers.map paperWeight, 0 < w := by
      intro w hwm
      obtain ⟨p, _, rfl⟩ := List.mem_map.mp hwm
      have := paperWeight_ge p
      linarith
    have hmain := wsLoop_length_subperm rand count 0 papers (papers.map paperWeight)
      (le_of_lt hlt) (by simp) hw (by intro j hj; simpa using hr j hj)
    rw [hsel]
    refine ⟨hmain.1, hmain.2, fun hnd => ?_⟩
    obtain ⟨m, hmp, hms⟩ := hmain.2
    exact hmp.nodup (hnd.sublist hms)

def wPaperA : Paper :=
  { id := 1, title := "a", category := "ai_tech", full_text := true,
    is_selected := true, is_used_in_episode := false, publication_date := 100 }

def wPaperB : Paper :=
  { id := 2, title := "b", category := "physics", full_text := false,
    is_selected := true, is_used_in_episode := false, publication_date := 99 }

def wPaperC : Paper :=
  { id := 3, title := "c", category := "mystery", full_text := false,
    is_selected := true, is_used_in_episode := false, publication_date := 98 }

theorem claim_C2_weighted_select_witness :
    (weighted_select (fun _ => 0) [wPaperA, wPaperB, wPaperC] 2).length = 2 ∧
    List.Subperm (weighted_select (fun _ => 0) [wPaperA, wPaperB, wPaperC] 2)
      [wPaperA, wPaperB, wPaperC] ∧
    weighted_select (fun _ => 0) [wPaperA, wPaperB] 3 = [wPaperA, wPaperB] := by
  have h := claim_C2_weighted_select (fun _ => 0) [wPaperA, wPaperB, wPaperC] 2
  have h2 := h.2 (by intro j hj; show 0 < 3 - j; omega) (by simp)
  have h' := claim_C2_weighted_select (fun _ => 0) [wPaperA, wPaperB] 3
  exact ⟨h2.1, h2.2.1, h'.1 (by simp)⟩

theorem wsLoop_eq_wsLoopNB (rand : ℕ → ℕ) :
    ∀ (c start : ℕ) (ps : List Paper) (ws : List ℚ),
      c ≤ ps.length → ws.length = ps.length → (∀ w ∈ ws, 0 < w) →
      wsLoop rand c start ps ws = wsLoopNB rand c start ps ws := by
  intro c
  induction c with
  | zero =>
    intro start ps ws _ _ _
    rfl
  | succ c ih =>
    intro start ps ws hc hlen hw
    rcases ps with _ | ⟨p, pt⟩
    · simp at hc
    · have hne : ws ≠ [] := by
        intro h
        rw [h] at hlen
        simp at hlen
      have htot : 0 < ws.sum := List.sum_pos ws hw hne
      rw [wsLoop, wsLoopNB]
      simp only [if_neg (ne_of_gt htot)]
      congr 1
      apply ih
      · rw [List.length_eraseIdx]
        simp only [List.length_cons] at hc ⊢
        split <;> omega
      · rw [List.length_eraseIdx, List.length_eraseIdx, hlen]
      · exact fun w hwm => hw w ((List.eraseIdx_sublist ws (rand start)).subset hwm)

/-- C10: every candidate weight computed by `weighted_select` is at least
the unknown-category default 0.05 (so every remaining-weight sum is
strictly positive: the normalization never divides by zero), and whenever
the pool is strictly larger than the requested count the zero-total
early-stop branch and the empty-pool break of the sampling loop are never
taken — the loop coincides with the break-free loop `wsLoopNB`. -/
theorem claim_C10_weights_positive :
    (∀ p : Paper, 1/20 ≤ paperWeight p) ∧
    (∀ ps : List Paper, ps ≠ [] → 0 < (ps.map paperWeight).sum) ∧
    (∀ (rand : ℕ → ℕ) (papers : List Paper) (count : ℕ), count < papers.length →
      wsLoop rand count 0 papers (papers.map paperWeight) =
        wsLoopNB rand count 0 papers (papers.map paperWeight)) := by
  have hw : ∀ (ps : List Paper), ∀ w ∈ ps.map paperWeight, 0 < w := by
    intro ps w hwm
    obtain ⟨p, _, rfl⟩ := List.mem_map.mp hwm
    have := paperWeight_ge p
    linarith
  refine ⟨paperWeight_ge, ?_, ?_⟩
  · intro ps hne
    apply List.sum_pos _ (hw ps)
    simpa using hne
  · intro rand papers count hlt
    exact wsLoop_eq_wsLoopNB rand count 0 papers (papers.map paperWeight)
      (le_of_lt hlt) (by simp) (hw papers)

theorem claim_C10_weights_positive_witness :
    1/20 ≤ paperWeight wPaperC ∧
    0 < ([wPaperA, wPaperB].map paperWeight).sum ∧
    wsLoop (fun _ => 1) 1 0 [wPaperA, wPaperB]
        ([wPaperA, wPaperB].map paperWeight) =
      wsLoopNB (fun _ => 1) 1 0 [wPaperA, wPaperB]
        ([wPaperA, wPaperB].map paperWeight) :=
  ⟨claim_C10_weights_positive.1 wPaperC,
   claim_C10_weights_positive.2.1 [wPaperA, wPaperB] (by simp),
   claim_C10_weights_positive.2.2 (fun _ => 1) [wPaperA, wPaperB] 1 (by simp)⟩

/-!
## Abstract reconstruction — `OpenAlexHarvester.reconstruct_abstract`

The OpenAlex inverted index `{word: [positions...]}` is modelled as an
association list in dict iteration order.  The source builds a
`position -> word` map by iterating all (word, positions) writes (later
writes overwrite), tracks the running maximum position starting from 0,
and joins the tokens `word_map.get(i, "")` for `i` in
`range(max_position + 1)` with single spaces.
-/

/-- Python dict assignment `word_map[pos] = word` on an association list:
updates in place if the key exists, else appends. -/
def insertPos (m : List (ℕ × String)) (p : ℕ) (w : String) : List (ℕ × String) :=
  match m with
  | [] => [(p, w)]
  | (q, v) :: rest => if q = p then (q, w) :: rest else (q, v) :: insertPos rest p w

/-- The `word_map` built by the nested loop of `reconstruct_abstract`. -/
def buildWordMap (idx : List (String × List ℕ)) : List (ℕ × String) :=
  idx.foldl (fun m wps => wps.2.foldl (fun m' pos => insertPos m' pos wps.1) m) []

/-- The running `max_position` of `reconstruct_abstract` (initial value 0). -/
def maxPosition (idx : List (String × List ℕ)) : ℕ :=
  idx.foldl (fun mx wps => wps.2.foldl (fun mx' pos => max mx' pos) mx) 0

/-- The ordered token array of `reconstruct_abstract`:
`[word_map.get(i, "") for i in range(max_position + 1)]`. -/
def abstractTokens (idx : List (String × List ℕ)) : List String :=
  (List.range (maxPosition idx + 1)).map (fun i => ((buildWordMap idx).lookup i).getD "")

/-- Translation of `reconstruct_abstract` (argument `none` models `None`,
and `if not inverted_index` also catches the empty dict). -/
def reconstruct_abstract (inverted_index : Option (List (String × List ℕ))) : String :=
  match inverted_index with
  | none => ""
  | some idx =>
    if idx = [] then ""
    else String.intercalate " " (abstractTokens idx)

theorem lookup_insertPos (m : List (ℕ × String)) (p : ℕ) (w : String) (q : ℕ) :
    (insertPos m p w).lookup q = if q = p then some w else m.lookup q := by
  induction m with
  | nil =>
    simp only [insertPos, List.lookup]
    by_cases hqp : q = p
    · simp [hqp]
    · simp [hqp, beq_false_of_ne hqp]
  | cons kv rest ih =>
    obtain ⟨k, v⟩ := kv
    by_cases hkp : k = p
    · subst hkp
      simp only [insertPos, if_pos rfl]
      by_cases hqk : q = k
      · subst hqk
        simp [List.lookup]
      · simp [List.lookup, hqk, beq_false_of_ne hqk]
    · simp only [insertPos, if_neg hkp]
      by_cases hqk : q = k
      · subst hqk
        rw [if_neg hkp]
        simp [List.lookup]
      · simp [List.lookup, beq_false_of_ne hqk, ih]

theorem lookup_foldl_insertPos (w : String) (ps : List ℕ) :
    ∀ (m : List (ℕ × String)) (q : ℕ),
      (ps.foldl (fun m' pos => insertPos m' pos w) m).lookup q =
        if q ∈ ps then some w else m.lookup q := by
  induction ps with
  | nil => intro m q; simp
  | cons p pt ih =>
    intro m q
    simp only [List.foldl_cons]
    rw [ih (insertPos m p w) q, lookup_insertPos]
    by_cases hqt : q ∈ pt
    · simp [hqt]
    · by_cases hqp : q = p
      · subst hqp
        simp [hqt]
      · simp [hqt, hqp]

theorem lookup_buildWordMap_foldl_not_listed (idx : List (String × List ℕ)) :
    ∀ (m : List (ℕ × String)) (q : ℕ), q ∉ idx.flatMap Prod.snd →
      ((idx.foldl (fun m' wps => wps.2.foldl (fun m'' pos => insertPos m'' pos wps.1) m') m).lookup q)
        = m.lookup q := by
  induction idx with
  | nil => intro m q _; rfl
  | cons e rest ih =>
    intro m q hq
    simp only [List.flatMap_cons, List.mem_append, not_or] at hq
    simp only [List.foldl_cons]
    rw [ih _ q hq.2, lookup_foldl_insertPos, if_neg hq.1]

theorem lookup_buildWordMap_listed (idx : List (String × List ℕ))
    (hnd : (idx.flatMap Prod.snd).Nodup) :
    ∀ (m : List (ℕ × String)) (q : ℕ) (w : String) (positions : List ℕ),
      (w, positions) ∈ idx → q ∈ positions →
      ((idx.foldl (fun m' wps => wps.2.foldl (fun m'' pos => insertPos m'' pos wps.1) m') m).lookup q)
        = some w := by
  induction idx with
  | nil => intro m q w positions hmem; simp at hmem
  | cons e rest ih =>
    intro m q w positions hmem hq
    simp only [List.flatMap_cons] at hnd
    rcases List.mem_cons.mp hmem with he | hr
    · subst he
      simp only [List.foldl_cons]
      have hqrest : q ∉ rest.flatMap Prod.snd :=
        fun h2 => (List.disjoint_of_nodup_append hnd) hq h2
      rw [lookup_buildWordMap_foldl_not_listed rest _ q hqrest,
        lookup_foldl_insertPos, if_pos hq]
    · simp only [List.foldl_cons]
      exact ih hnd.of_append_right _ q w positions hr hq

theorem foldl_max_mem (t : List ℕ) : ∀ a : ℕ, t.foldl max a ∈ a :: t := by
  induction t with
  | nil => intro a; simp
  | cons b r ih =>
    intro a
    simp only [List.foldl_cons]
    have h := ih (max a b)
    rcases List.mem_cons.mp h with h1 | h2
    · rcases max_choice a b with hab | hab <;> rw [h1, hab] <;> simp
    · simp [h2]

theorem foldl_max_le (t : List ℕ) : ∀ (a : ℕ) (p : ℕ), p ∈ t → p ≤ t.foldl max a := by
  induction t with
  | nil => intro a p hp; simp at hp
  | cons b r ih =>
    intro a p hp
    simp only [List.foldl_cons]
    rcases List.mem_cons.mp hp with h1 | h2
    · subst h1
      calc p ≤ max a p := le_max_right a p
      _ ≤ r.foldl max (max a p) := by
        have : ∀ (l : List ℕ) (x : ℕ), x ≤ l.foldl max x := by
          intro l
          induction l with
          | nil => intro x; simp
          | cons c s ihs =>
            intro x
            simp only [List.foldl_cons]
            exact le_trans (le_max_left x c) (ihs (max x c))
        exact this r (max a p)
    · exact ih (max a b) p h2

theorem foldl_max_init_le (t : List ℕ) : ∀ a : ℕ, a ≤ t.foldl max a := by
  induction t with
  | nil => intro a; simp
  | cons c s ihs =>
    intro a
    simp only [List.foldl_cons]
    exact le_trans (le_max_left a c) (ihs (max a c))

theorem maxPosition_eq_foldl (idx : List (String × List ℕ)) :
    ∀ a : ℕ,
      idx.foldl (fun mx wps => wps.2.foldl (fun mx' pos => max mx' pos) mx) a =
        (idx.flatMap Prod.snd).foldl max a := by
  induction idx with
  | nil => intro a; rfl
  | cons e rest ih =>
    intro a
    simp only [List.foldl_cons, List.flatMap_cons, List.foldl_append]
    exact ih _

/-- C8: with every listed position listed exactly once and at least one
position present, `reconstruct_abstract` returns the space-join of the
token array of length `max(position) + 1` in which each listed position
holds its word and every unlisted gap position holds the empty string — so
a gap yields two consecutive spaces in the output, preserved as is. -/
theorem claim_C8_reconstruct_abstract (idx : List (String × List ℕ))
    (hnd : (idx.flatMap Prod.snd).Nodup)
    (hne : idx.flatMap Prod.snd ≠ []) :
    reconstruct_abstract (some idx) = String.intercalate " " (abstractTokens idx) ∧
    (abstractTokens idx).length = maxPosition idx + 1 ∧
    maxPosition idx ∈ idx.flatMap Prod.snd ∧
    (∀ p ∈ idx.flatMap Prod.snd, p ≤ maxPosition idx) ∧
    (∀ w positions, (w, positions) ∈ idx → ∀ p ∈ positions,
      (abstractTokens idx).getD p "" = w) ∧
    (∀ i, i ≤ maxPosition idx → i ∉ idx.flatMap Prod.snd →
      (abstractTokens idx).getD i "" = "") := by
  have hidx : idx ≠ [] := by
    intro h
    subst h
    exact hne rfl
  have hmaxf : maxPosition idx = (idx.flatMap Prod.snd).foldl max 0 :=
    maxPosition_eq_foldl idx 0
  have hle : ∀ p ∈ idx.flatMap Prod.snd, p ≤ maxPosition idx := by
    intro p hp
    rw [hmaxf]
    exact foldl_max_le _ 0 p hp
  refine ⟨?_, by simp [abstractTokens], ?_, hle, ?_, ?_⟩
  · simp only [reconstruct_abstract, if_neg hidx]
  · rw [hmaxf]
    rcases hflat : idx.flatMap Prod.snd with _ | ⟨a, t⟩
    · exact absurd hflat hne
    · have h0a : max 0 a = a := max_eq_right (Nat.zero_le a)
      simp only [List.foldl_cons, h0a]
      exact foldl_max_mem t a
  · intro w positions hmem p hp
    have hpf : p ∈ idx.flatMap Prod.snd := List.mem_flatMap.mpr ⟨(w, positions), hmem, hp⟩
    have hlt : p < maxPosition idx + 1 := Nat.lt_succ_of_le (hle p hpf)
    simp only [abstractTokens, List.getD, List.get?_eq_getElem?, List.getElem?_map]
    rw [List.getElem?_range hlt]
    have hlook : (buildWordMap idx).lookup p = some w := by
      unfold buildWordMap
      exact lookup_buildWordMap_listed idx hnd [] p w positions hmem hp
    simp [hlook]
  · intro i hi hnot
    have hlt : i < maxPosition idx + 1 := Nat.lt_succ_of_le hi
    simp only [abstractTokens, List.getD, List.get?_eq_getElem?, List.getElem?_map]
    rw [List.getElem?_range hlt]
    have hlook : (buildWordMap idx).lookup i = none := by
      unfold buildWordMap
      exact lookup_buildWordMap_foldl_not_listed idx [] i hnot
    simp [hlook]

theorem claim_C8_reconstruct_abstract_witness :
    reconstruct_abstract (some [("hello", [0]), ("world", [2])]) = "hello  world" ∧
    (abstractTokens [("hello", [0]), ("world", [2])]).getD 1 "" = "" ∧
    (abstractTokens [("hello", [0]), ("world", [2])]).getD 2 "" = "world" := by
  have h := claim_C8_reconstruct_abstract [("hello", [0]), ("world", [2])]
    (by decide) (by decide)
  refine ⟨by rfl, ?_, ?_⟩
  · exact h.2.2.2.2.2 1 (by decide) (by decide)
  · exact h.2.2.2.2.1 "world" [2] (by simp) 2 (by simp)

/-!
## Ingestion & Dedup Gate — `OpenAlexHarvester.process_and_store`

A raw OpenAlex record is reduced to the fields the function checks:
`oid` is `item.get("id")` with missing/`None` rendered as `""` (both are
falsy under `if not openalex_id`), and `publication_date` distinguishes
missing/empty, present-but-unparseable (`date.fromisoformat` raises
`ValueError`), and parsed day numbers.  The database session is a list of
stored papers; the duplicate-check `SELECT` sees only the rows present at
entry because the session has `autoflush=False` and the single `flush`
happens after the loop, so additions made during the batch stay pending.
-/

inductive DateField
  | missing
  | malformed
  | valid (d : ℤ)
deriving DecidableEq, Repr

structure RawRecord where
  oid : String
  publication_date : DateField
deriving DecidableEq, Repr

structure StoredPaper where
  openalex_id : String
  publication_date : ℤ
  category_slug : Option String
  metrics_category : Option String
  is_selected : Bool
deriving DecidableEq, Repr

/-- Construction of the `Paper` row: the category slug is copied as is,
goes into the metrics map only when truthy, and `is_selected` is the
truthiness of the slug (`True if category_slug else False`). -/
def mkStored (item : RawRecord) (category_slug : Option String) (pub_date : ℤ) : StoredPaper :=
  { openalex_id := item.oid
    publication_date := pub_date
    category_slug := category_slug
    metrics_category :=
      match category_slug with
      | some s => if s = "" then none else some s
      | none => none
    is_selected :=
      match category_slug with
      | some s => if s = "" then false else true
      | none => false }

/-- Day number of a parsed date (unused on skipped records). -/
def storedDate (item : RawRecord) : ℤ :=
  match item.publication_date with
  | DateField.valid d => d
  | _ => 0

/-- The per-record loop of `process_and_store`: skip on missing id, on a
duplicate already in the database, and on a missing or malformed date;
otherwise build the paper, add it to the pending batch and count it. -/
def processLoop (db : List StoredPaper) (category_slug : Option String) :
    List RawRecord → ℕ × List StoredPaper
  | [] => (0, [])
  | item :: rest =>
    if item.oid = "" then processLoop db category_slug rest
    else if db.any (fun p => p.openalex_id == item.oid) then processLoop db category_slug rest
    else
      match item.publication_date with
      | DateField.missing => processLoop db category_slug rest
      | DateField.malformed => processLoop db category_slug rest
      | DateField.valid d =>
        let r := processLoop db category_slug rest
        (r.1 + 1, mkStored item category_slug d :: r.2)

/-- Translation of `process_and_store`: returns the count of newly stored
papers, and the store after the final `flush` appends the pending batch. -/
def process_and_store (raw_papers : List RawRecord) (category_slug : Option String)
    (db : List StoredPaper) : ℕ × List StoredPaper :=
  let r := processLoop db category_slug raw_papers
  (r.1, db ++ r.2)

/-- A record is stored iff its id is nonempty, not already in the store at
batch entry, and its publication date parses. -/
def acceptedRecord (db : List StoredPaper) (item : RawRecord) : Bool :=
  (item.oid != "") && !(db.any (fun p => p.openalex_id == item.oid)) &&
    (match item.publication_date with
     | DateField.valid _ => true
     | _ => false)

/-- A record carries a present, parseable publication date. -/
def hasValidDate (item : RawRecord) : Bool :=
  match item.publication_date with
  | DateField.valid _ => true
  | _ => false

theorem processLoop_eq_filter (db : List StoredPaper) (cat : Option String) :
    ∀ raws : List RawRecord,
      processLoop db cat raws =
        ((raws.filter (acceptedRecord db)).length,
         (raws.filter (acceptedRecord db)).map (fun r => mkStored r cat (storedDate r))) := by
  intro raws
  induction raws with
  | nil => rfl
  | cons item rest ih =>
    simp only [processLoop]
    by_cases h1 : item.oid = ""
    · rw [if_pos h1]
      have hacc : acceptedRecord db item = false := by
        simp [acceptedRecord, h1]
      simp [List.filter_cons, hacc, ih]
    · rw [if_neg h1]
      by_cases h2 : db.any (fun p => p.openalex_id == item.oid)
      · rw [if_pos h2]
        have hacc : acceptedRecord db item = false := by
          simp [acceptedRecord, h2]
        simp [List.filter_cons, hacc, ih]
      · rw [if_neg h2]
        rcases hdate : item.publication_date with _ | _ | d
        · have hacc : acceptedRecord db item = false := by
            simp [acceptedRecord, hdate]
          simp [List.filter_cons, hacc, ih]
        · have hacc : acceptedRecord db item = false := by
            simp [acceptedRecord, hdate]
          simp [List.filter_cons, hacc, ih]
        · have hacc : acceptedRecord db item = true := by
            simp [acceptedRecord, h1, h2, hdate]
          have hsd : storedDate item = d := by simp [storedDate, hdate]
          simp [List.filter_cons, hacc, ih, hsd]

/-- C5: the returned count is the number of records with a nonempty
identity, an identity not already in the store at batch entry, and a
parseable date, and exactly those records are appended; a record with a
missing identity or a missing/malformed date is skipped without affecting
the rest of the batch; a record whose identity is already stored is a
no-op; and for a batch of fresh nonempty identities the count is exactly
the number of records with parseable dates (so one malformed record in a
batch of N stores N−1). -/
theorem claim_C5_process_and_store :
    (∀ (raws : List RawRecord) (cat : Option String) (db : List StoredPaper),
      (process_and_store raws cat db).1 = (raws.filter (acceptedRecord db)).length ∧
      (process_and_store raws cat db).2 =
        db ++ (raws.filter (acceptedRecord db)).map (fun r => mkStored r cat (storedDate r))) ∧
    (∀ (bad : RawRecord) (l1 l2 : List RawRecord) (cat : Option String) (db : List StoredPaper),
      (bad.oid = "" ∨ bad.publication_date = DateField.missing ∨
        bad.publication_date = DateField.malformed) →
      process_and_store (l1 ++ bad :: l2) cat db = process_and_store (l1 ++ l2) cat db) ∧
    (∀ (r : RawRecord) (rest : List RawRecord) (cat : Option String) (db : List StoredPaper),
      (∃ p ∈ db, p.openalex_id = r.oid) →
      process_and_store (r :: rest) cat db = process_and_store rest cat db) ∧
    (∀ (raws : List RawRecord) (cat : Option String) (db : List StoredPaper),
      (∀ r ∈ raws, r.oid ≠ "" ∧ ¬∃ p ∈ db, p.openalex_id = r.oid) →
      (process_and_store raws cat db).1 = (raws.filter hasValidDate).length) := by
  have hchar : ∀ (raws : List RawRecord) (cat : Option String) (db : List StoredPaper),
      (process_and_store raws cat db).1 = (raws.filter (acceptedRecord db)).length ∧
      (process_and_store raws cat db).2 =
        db ++ (raws.filter (acceptedRecord db)).map (fun r => mkStored r cat (storedDate r)) := by
    intro raws cat db
    unfold process_and_store
    rw [processLoop_eq_filter]
    exact ⟨rfl, rfl⟩
  refine ⟨hchar, ?_, ?_, ?_⟩
  · intro bad l1 l2 cat db hbad
    have hacc : acceptedRecord db bad = false := by
      rcases hbad with h | h | h <;> simp [acceptedRecord, h]
    unfold process_and_store
    rw [processLoop_eq_filter, processLoop_eq_filter]
    simp [List.filter_append, List.filter_cons, hacc]
  · intro r rest cat db hdup
    have hany : db.any (fun p => p.openalex_id == r.oid) = true := by
      obtain ⟨p, hp, he⟩ := hdup
      exact List.any_eq_true.mpr ⟨p, hp, by simp [he]⟩
    have hacc : acceptedRecord db r = false := by
      simp [acceptedRecord, hany]
    unfold process_and_store
    rw [processLoop_eq_filter, processLoop_eq_filter]
    simp [List.filter_cons, hacc]
  · intro raws cat db hfresh
    rw [(hchar raws cat db).1]
    have hcong : raws.filter (acceptedRecord db) = raws.filter hasValidDate := by
      apply List.filter_congr
      intro r hr
      obtain ⟨hne, hnodup⟩ := hfresh r hr
      have hany : db.any (fun p => p.openalex_id == r.oid) = false := by
        rw [List.any_eq_false]
        intro p hp
        simp only [beq_iff_eq]
        intro he
        exact hnodup ⟨p, hp, he⟩
      simp [acceptedRecord, hasValidDate, hne, hany]
    rw [hcong]

theorem claim_C5_process_and_store_witness :
    (process_and_store
      [{ oid := "W2", publication_date := DateField.valid 100 },
       { oid := "W3", publication_date := DateField.malformed },
       { oid := "W1", publication_date := DateField.valid 99 }]
      (some "physics")
      [{ openalex_id := "W1", publication_date := 99, category_slug := some "physics",
         metrics_category := some "physics", is_selected := true }]).1 = 1 ∧
    process_and_store
      [{ oid := "W1", publication_date := DateField.valid 99 }] none
      [{ openalex_id := "W1", publication_date := 99, category_slug := some "physics",
         metrics_category := some "physics", is_selected := true }] =
      process_and_store [] none
      [{ openalex_id := "W1", publication_date := 99, category_slug := some "physics",
         metrics_category := some "physics", is_selected := true }] ∧
    (process_and_store
      [{ oid := "A1", publication_date := DateField.malformed },
       { oid := "A2", publication_date := DateField.valid 50 },
       { oid := "A3", publication_date := DateField.valid 51 }] none []).1 = 2 := by
  refine ⟨?_, ?_, ?_⟩
  · rw [(claim_C5_process_and_store.1 _ _ _).1]
    decide
  · exact claim_C5_process_and_store.2.2.1 _ _ _ _
      ⟨{ openalex_id := "W1", publication_date := 99, category_slug := some "physics",
         metrics_category := some "physics", is_selected := true }, by simp, rfl⟩
  · rw [claim_C5_process_and_store.2.2.2 _ _ _ (by decide)]
    decide

/-!
## Run Tracker — `track_cron_run` / `CronRunTracker.finish` (`app/cron/tracking.py`)

The context manager is modelled as a higher-order function over a wrapped
body.  The body receives the tracker state (the `set_status` override and
the `set_result` payload) and ambient state `σ` (the rest of the world the
body may mutate), and either returns normally or raises (`Except.error`).
Exceptions carry the fault type name and message; `traceback.format_exc()`
is an opaque text `tb`.  `finish` is the sole database writer: it builds
exactly one `CronRunRec`; `final_status = self.status or status` makes a
truthy (nonempty) override win even on the failure path.
-/

inductive JVal
  | s (v : String)
  | i (v : ℤ)
deriving DecidableEq, Repr

structure ExnInfo where
  name : String
  msg : String
deriving DecidableEq, Repr

structure TrackerSt where
  status : Option String
  result : List (String × JVal)
deriving DecidableEq, Repr

/-- Tracker state at `__init__`: no override, empty result dict. -/
def initTracker : TrackerSt := { status := none, result := [] }

structure CronRunRec where
  job_name : String
  run_date : ℤ
  status : String
  result : Option (List (String × JVal))
  error_message : Option String
deriving DecidableEq, Repr

/-- Translation of `CronRunTracker.finish`: `self.status or status` (an
empty-string override is falsy), the result dict is stored unless falsy
(empty), and the error message is `f"{type}: {msg}\n\n{traceback}"`. -/
def trackerFinish (job_name : String) (run_date : ℤ) (tr : TrackerSt) (status : String)
    (error : Option ExnInfo) (tb : String) : CronRunRec :=
  let final_status :=
    match tr.status with
    | some s => if s = "" then status else s
    | none => status
  { job_name := job_name
    run_date := run_date
    status := final_status
    result := if tr.result = [] then none else some tr.result
    error_message := error.map (fun e => e.name ++ ": " ++ e.msg ++ "\n\n" ++ tb) }

/-- Translation of the `track_cron_run` context manager: run the body; on
normal return record with base status `success`, on a raise record with
base status `failed` and re-raise.  The returned list holds the records
written by this invocation. -/
def track_cron_run {σ α : Type _} (job_name : String) (run_date : ℤ) (tb : String)
    (body : TrackerSt → σ → TrackerSt × σ × Except ExnInfo α) (s : σ) :
    σ × List CronRunRec × Except ExnInfo α :=
  let r := body initTracker s
  match r.2.2 with
  | Except.ok a =>
    (r.2.1, [trackerFinish job_name run_date r.1 "success" none tb], Except.ok a)
  | Except.error e =>
    (r.2.1, [trackerFinish job_name run_date r.1 "failed" (some e) tb], Except.error e)

/-- A wrapped body that sets a status override and then raises; the
recorded status is the override, not `failed`. -/
def c4Body : TrackerSt → Unit → TrackerSt × Unit × Except ExnInfo Unit :=
  fun tr _ =>
    ({ tr with status := some "skipped" }, (),
     Except.error { name := "ValueError", msg := "boom" })

/-- C4 fails as stated: a body that calls `set_status("skipped")` before
raising yields one record whose status is `"skipped"`, not `"failed"`,
because `finish` computes `self.status or status`. -/
theorem claim_C4_run_tracker_counterexample :
    (track_cron_run "podcast" 0 "Traceback" c4Body ()).2.1.map CronRunRec.status =
      ["skipped"] ∧
    (track_cron_run "podcast" 0 "Traceback" c4Body ()).2.2 =
      Except.error { name := "ValueError", msg := "boom" } ∧
    "skipped" ≠ "failed" := by
  refine ⟨rfl, rfl, by decide⟩

/-- C4 (amended): a wrapped body that raises yields exactly one record,
whose error detail is the nonempty string `"{type}: {msg}\n\n{traceback}"`,
and the exception propagates; the recorded status is `failed` unless the
body stored a truthy status override before raising, in which case the
override is recorded (`final_status = self.status or status`). -/
theorem claim_C4_run_tracker {σ α : Type _} (job_name : String) (run_date : ℤ)
    (tb : String) (body : TrackerSt → σ → TrackerSt × σ × Except ExnInfo α) (s : σ)
    (st' : TrackerSt) (s' : σ) (e : ExnInfo)
    (hraise : body initTracker s = (st', s', Except.error e)) :
    (track_cron_run job_name run_date tb body s).2.1 =
      [trackerFinish job_name run_date st' "failed" (some e) tb] ∧
    (track_cron_run job_name run_date tb body s).2.2 = Except.error e ∧
    (trackerFinish job_name run_date st' "failed" (some e) tb).error_message =
      some (e.name ++ ": " ++ e.msg ++ "\n\n" ++ tb) ∧
    (∀ em, (trackerFinish job_name run_date st' "failed" (some e) tb).error_message =
      some em → em ≠ "") ∧
    ((st'.status = none ∨ st'.status = some "") →
      (trackerFinish job_name run_date st' "failed" (some e) tb).status = "failed") ∧
    (∀ ov, st'.status = some ov → ov ≠ "" →
      (trackerFinish job_name run_date st' "failed" (some e) tb).status = ov) := by
  have htrack : track_cron_run job_name run_date tb body s =
      (s', [trackerFinish job_name run_date st' "failed" (some e) tb], Except.error e) := by
    unfold track_cron_run
    rw [hraise]
  refine ⟨by rw [htrack], by rw [htrack], rfl, ?_, ?_, ?_⟩
  · intro em hem
    have hemq : em = e.name ++ ": " ++ e.msg ++ "\n\n" ++ tb := by
      have : some (e.name ++ ": " ++ e.msg ++ "\n\n" ++ tb) = some em := by
        rw [← hem]
        rfl
      exact (Option.some.inj this).symm
    intro h0
    rw [hemq] at h0
    have hlen := congrArg String.length h0
    simp only [String.length_append] at hlen
    have h2 : (": ").length = 2 := by decide
    have h3 : ("\n\n").length = 2 := by decide
    have h4 : ("").length = 0 := by decide
    rw [h2, h3, h4] at hlen
    omega
  · intro hov
    unfold trackerFinish
    rcases hov with h | h <;> simp [h]
  · intro ov hov hne
    unfold trackerFinish
    simp [hov, hne]

/-- A wrapped body that raises without any override. -/
def c4WBody : TrackerSt → Unit → TrackerSt × Unit × Except ExnInfo Unit :=
  fun tr _ => (tr, (), Except.error { name := "RuntimeError", msg := "x" })

theorem claim_C4_run_tracker_witness :
    (track_cron_run "podcast" 7 "tbtext" c4WBody ()).2.1 =
      [trackerFinish "podcast" 7 initTracker "failed"
        (some { name := "RuntimeError", msg := "x" }) "tbtext"] ∧
    (trackerFinish "podcast" 7 initTracker "failed"
      (some { name := "RuntimeError", msg := "x" }) "tbtext").status = "failed" ∧
    (track_cron_run "podcast" 7 "tbtext" c4WBody ()).2.2 =
      Except.error { name := "RuntimeError", msg := "x" } := by
  have h := claim_C4_run_tracker "podcast" 7 "tbtext" c4WBody () initTracker ()
    { name := "RuntimeError", msg := "x" } rfl
  exact ⟨h.1, h.2.2.2.2.1 (Or.inl rfl), h.2.1⟩


/-!
## Quality Filter keyword gate — `filter_ai_papers` (`app/cron/tasks/curate_ai.py`)

The filter lowercases the raw title and the space-join of the inverted
index KEYS (not the position-reconstructed abstract), concatenates them
with one space, and keeps a paper iff some fixed keyword occurs in that
text as a substring, breaking at the first hit.  `.lower()` is modelled by
per-character ASCII lowering.
-/

structure RawAIPaper where
  title : Option String
  abstract_inverted_index : Option (List (String × List ℕ))
deriving DecidableEq, Repr

/-- The `AI_KEYWORDS` vocabulary, verbatim from the source. -/
def AI_KEYWORDS : List String :=
  ["llm", "large language model", "gpt", "transformer", "neural network",
   "deep learning", "machine learning", "artificial intelligence",
   "bert", "attention mechanism", "diffusion model", "generative ai",
   "language model", "foundation model", "multimodal", "vision language",
   "fine-tuning", "fine tuning", "rlhf", "reinforcement learning",
   "prompt", "embedding", "tokenizer", "inference", "training",
   "chatbot", "text generation", "image generation", "code generation",
   "summarization", "translation", "sentiment", "classification",
   "openai", "anthropic", "claude", "gemini", "llama", "mistral",
   "deepseek", "stable diffusion", "midjourney",
   "agent", "reasoning", "chain of thought", "in-context learning",
   "few-shot", "zero-shot", "retrieval augmented", "rag"]

/-- Python `.lower()` restricted to ASCII letters. -/
def pyLower (s : String) : String := ⟨s.data.map Char.toLower⟩

/-- Helper for Python substring membership on character lists. -/
def containsSub (needle : List Char) : List Char → Bool
  | [] => needle.isEmpty
  | c :: t => needle.isPrefixOf (c :: t) || containsSub needle t

/-- Python substring membership `needle in hay`. -/
def pyContains (needle hay : String) : Bool := containsSub needle.data hay.data

/-- The `text_to_search` of one paper:
`f"{title.lower()} {' '.join(abstract_index.keys()).lower()}"`. -/
def textToSearch (paper : RawAIPaper) : String :=
  let title := pyLower (paper.title.getD "")
  let abstract_words := (paper.abstract_inverted_index.getD []).map Prod.fst
  let abstract_text := pyLower (String.intercalate " " abstract_words)
  title ++ " " ++ abstract_text

/-- The inner keyword loop with its `break`: the first matching keyword. -/
def firstMatch (text : String) : List String → Option String
  | [] => none
  | k :: ks => if pyContains k text then some k else firstMatch text ks

/-- A paper is retained iff the keyword loop found a hit. -/
def retainAI (paper : RawAIPaper) : Bool :=
  (firstMatch (textToSearch paper) AI_KEYWORDS).isSome

/-- Translation of `filter_ai_papers`. -/
def filter_ai_papers : List RawAIPaper → List RawAIPaper
  | [] => []
  | p :: ps => if retainAI p then p :: filter_ai_papers ps else filter_ai_papers ps

theorem filter_ai_papers_eq_filter :
    ∀ papers : List RawAIPaper, filter_ai_papers papers = papers.filter retainAI := by
  intro papers
  induction papers with
  | nil => rfl
  | cons p ps ih =>
    by_cases h : retainAI p
    · simp [filter_ai_papers, List.filter_cons, h, ih]
    · simp [filter_ai_papers, List.filter_cons, h, ih]

theorem firstMatch_isSome (text : String) :
    ∀ ks : List String, (firstMatch text ks).isSome = true ↔
      ∃ k ∈ ks, pyContains k text = true := by
  intro ks
  induction ks with
  | nil => simp [firstMatch]
  | cons k kt ih =>
    by_cases h : pyContains k text
    · simp [firstMatch, h]
    · simp only [firstMatch, if_neg h, ih, List.mem_cons]
      constructor
      · rintro ⟨k', hk', hc⟩
        exact ⟨k', Or.inr hk', hc⟩
      · rintro ⟨k', hk' | hk', hc⟩
        · subst hk'
          exact absurd hc h
        · exact ⟨k', hk', hc⟩

theorem firstMatch_first (text : String) :
    ∀ (ks : List String) (k : String), firstMatch text ks = some k →
      ∃ l1 l2, ks = l1 ++ k :: l2 ∧ pyContains k text = true ∧
        ∀ k' ∈ l1, pyContains k' text = false := by
  intro ks
  induction ks with
  | nil => intro k h; simp [firstMatch] at h
  | cons k0 kt ih =>
    intro k h
    by_cases hc : pyContains k0 text
    · rw [firstMatch, if_pos hc] at h
      obtain rfl := Option.some.inj h
      exact ⟨[], kt, rfl, hc, by simp⟩
    · rw [firstMatch, if_neg hc] at h
      obtain ⟨l1, l2, heq, hck, hall⟩ := ih k h
      refine ⟨k0 :: l1, l2, by rw [heq]; rfl, hck, ?_⟩
      intro k' hk'
      rcases List.mem_cons.mp hk' with h1 | h1
      · subst h1
        exact Bool.eq_false_iff.mpr hc
      · exact hall k' h1

/-- C7: the filter keeps exactly the papers whose search text contains
some keyword of the fixed vocabulary as a substring (case-insensitively,
via lowercasing), preserves the input's relative order (the output is a
sublist), and the keyword loop stops at the first matching term: every
vocabulary term before the returned one fails the substring test. -/
theorem claim_C7_filter_ai_papers :
    (∀ papers : List RawAIPaper, List.Sublist (filter_ai_papers papers) papers) ∧
    (∀ (papers : List RawAIPaper) (p : RawAIPaper),
      p ∈ filter_ai_papers papers ↔
        p ∈ papers ∧ ∃ k ∈ AI_KEYWORDS, pyContains k (textToSearch p) = true) ∧
    (∀ (text : String) (k : String), firstMatch text AI_KEYWORDS = some k →
      ∃ l1 l2, AI_KEYWORDS = l1 ++ k :: l2 ∧ pyContains k text = true ∧
        ∀ k' ∈ l1, pyContains k' text = false) := by
  refine ⟨?_, ?_, ?_⟩
  · intro papers
    rw [filter_ai_papers_eq_filter]
    exact List.filter_sublist papers
  · intro papers p
    rw [filter_ai_papers_eq_filter, List.mem_filter]
    constructor
    · rintro ⟨hp, hr⟩
      exact ⟨hp, (firstMatch_isSome (textToSearch p) AI_KEYWORDS).mp hr⟩
    · rintro ⟨hp, hex⟩
      exact ⟨hp, (firstMatch_isSome (textToSearch p) AI_KEYWORDS).mpr hex⟩
  · intro text k h
    exact firstMatch_first text AI_KEYWORDS k h

def aiPaperYes : RawAIPaper :=
  { title := some "A new LLM benchmark", abstract_inverted_index := none }

def aiPaperNo : RawAIPaper :=
  { title := some "Soil moisture dynamics", abstract_inverted_index := none }

theorem claim_C7_filter_ai_papers_witness :
    filter_ai_papers [aiPaperYes, aiPaperNo] = [aiPaperYes] ∧
    aiPaperYes ∈ filter_ai_papers [aiPaperYes, aiPaperNo] ∧
    (∃ l1 l2, AI_KEYWORDS = l1 ++ "llm" :: l2 ∧
      pyContains "llm" (textToSearch aiPaperYes) = true ∧
      ∀ k' ∈ l1, pyContains k' (textToSearch aiPaperYes) = false) := by
  refine ⟨by decide, ?_, ?_⟩
  · exact (claim_C7_filter_ai_papers.2.1 [aiPaperYes, aiPaperNo] aiPaperYes).mpr
      ⟨by decide, "llm", by decide, by decide⟩
  · exact claim_C7_filter_ai_papers.2.2 (textToSearch aiPaperYes) "llm" (by decide)

/-!
## External Rerank Adapter — `PaperCurator.rank_papers` (`app/services/curator.py`)

JSON values carry integer numbers and no `\u` escapes — enough for the id
lists the adapter consumes; `json_loads` is a fuelled recursive-descent
parser requiring the whole string to be one JSON value (as `json.loads`
does).  The adapter itself is `rankPapersWith`, parametric in the parsing
function, so the fallback theorems hold for any parser; `rank_papers`
instantiates it with `json_loads`.  The service call and its response are
an `Except`: `Except.error` models a raise anywhere in the `try` block.
-/

inductive Json
  | null
  | bool (b : Bool)
  | num (n : ℤ)
  | str (s : String)
  | arr (items : List Json)
  | obj (fields : List (String × Json))

def lbrace : Char := Char.ofNat 123

def rbrace : Char := Char.ofNat 125

/-- JSON whitespace accepted between tokens by `json.loads`. -/
def isJSpace (c : Char) : Bool :=
  c = ' ' || c = '\t' || c = '\n' || c = '\r'

def skipWs (s : List Char) : List Char := s.dropWhile isJSpace

/-- Python `\s` class members relevant to `str.strip` and the regexes. -/
def isPySpace (c : Char) : Bool :=
  c = ' ' || c = '\t' || c = '\n' || c = '\r' || c = Char.ofNat 11 || c = Char.ofNat 12

/-- One escape character of a JSON string (`\u` is out of model scope). -/
def escChar (e : Char) : Option Char :=
  if e = '"' then some '"'
  else if e = '\\' then some '\\'
  else if e = '/' then some '/'
  else if e = 'n' then some '\n'
  else if e = 't' then some '\t'
  else if e = 'r' then some '\r'
  else if e = 'b' then some (Char.ofNat 8)
  else if e = 'f' then some (Char.ofNat 12)
  else none

/-- Body of a JSON string after the opening quote. -/
def parseStrChars : List Char → Option (List Char × List Char)
  | [] => none
  | c :: rest =>
    if c = '"' then some ([], rest)
    else if c = '\\' then
      match rest with
      | [] => none
      | e :: rest2 =>
        match escChar e with
        | none => none
        | some ec =>
          match parseStrChars rest2 with
          | some (cs, r) => some (ec :: cs, r)
          | none => none
    else
      match parseStrChars rest with
      | some (cs, r) => some (c :: cs, r)
      | none => none

/-- An integer JSON number; a following `.`/`e`/`E` (a float) is out of
model scope and rejected. -/
def parseNum (s : List Char) : Option (Json × List Char) :=
  let core := fun (t : List Char) (sign : ℤ) =>
    let ds := t.takeWhile Char.isDigit
    let r := t.dropWhile Char.isDigit
    if ds = [] then none
    else
      match r with
      | c :: _ =>
        if c = '.' || c = 'e' || c = 'E' then none
        else some (Json.num (sign * (ds.foldl (fun n c' => n * 10 + ((c'.toNat : ℤ) - 48)) 0)), r)
      | [] => some (Json.num (sign * (ds.foldl (fun n c' => n * 10 + ((c'.toNat : ℤ) - 48)) 0)), r)
  match s with
  | '-' :: rest => core rest (-1)
  | _ => core s 1

mutual

def parseValue : ℕ → List Char → Option (Json × List Char)
  | 0, _ => none
  | Nat.succ fuel, s =>
    match skipWs s with
    | [] => none
    | c :: rest =>
      if c = '"' then
        match parseStrChars rest with
        | some (cs, r) => some (Json.str ⟨cs⟩, r)
        | none => none
      else if c = '[' then
        match skipWs rest with
        | ']' :: r2 => some (Json.arr [], r2)
        | _ =>
          match parseElems fuel rest with
          | some (items, r2) => some (Json.arr items, r2)
          | none => none
      else if c = lbrace then
        match skipWs rest with
        | c2 :: r2 =>
          if c2 = rbrace then some (Json.obj [], r2)
          else
            match parseMembers fuel rest with
            | some (fields, r3) => some (Json.obj fields, r3)
            | none => none
        | [] => none
      else if c = 't' then
        if "rue".data.isPrefixOf rest then some (Json.bool true, rest.drop 3) else none
      else if c = 'f' then
        if "alse".data.isPrefixOf rest then some (Json.bool false, rest.drop 4) else none
      else if c = 'n' then
        if "ull".data.isPrefixOf rest then some (Json.null, rest.drop 3) else none
      else parseNum (c :: rest)

def parseElems : ℕ → List Char → Option (List Json × List Char)
  | 0, _ => none
  | Nat.succ fuel, s =>
    match parseValue fuel s with
    | none => none
    | some (v, r) =>
      match skipWs r with
      | ',' :: r2 =>
        match parseElems fuel r2 with
        | some (items, r3) => some (v :: items, r3)
        | none => none
      | ']' :: r2 => some ([v], r2)
      | _ => none

def parseMembers : ℕ → List Char → Option (List (String × Json) × List Char)
  | 0, _ => none
  | Nat.succ fuel, s =>
    match skipWs s with
    | [] => none
    | c :: r =>
      if c = '"' then
        match parseStrChars r with
        | none => none
        | some (key, r1) =>
          match skipWs r1 with
          | ':' :: r2 =>
            match parseValue fuel r2 with
            | none => none
            | some (v, r3) =>
              match skipWs r3 with
              | ',' :: r4 =>
                match parseMembers fuel r4 with
                | some (fields, r5) => some ((⟨key⟩, v) :: fields, r5)
                | none => none
              | c5 :: r5 =>
                if c5 = rbrace then some ([(⟨key⟩, v)], r5) else none
              | [] => none
          | _ => none
      else none

end

/-- Model of `json.loads`: one JSON value, whole input consumed. -/
def json_loads (s : String) : Option Json :=
  match parseValue (2 * s.length + 2) s.data with
  | some (v, r) => if skipWs r = [] then some v else none
  | none => none

/-- Python `str.strip()`. -/
def pyStrip (s : String) : String :=
  ⟨((s.data.dropWhile isPySpace).reverse.dropWhile isPySpace).reverse⟩

/-- The markdown fence stripping of `rank_papers`:
`re.sub(r'^```(?:json)?\s*', '', ...)` then `re.sub(r'\s*```$', '', ...)`,
both applied only when the text starts with three backticks.  The text
reaching this step has been stripped, so `$` is plain end-of-string. -/
def stripFences (s : String) : String :=
  if "```".data.isPrefixOf s.data then
    let afterTicks := s.data.drop 3
    let afterTag := if "json".data.isPrefixOf afterTicks then afterTicks.drop 4 else afterTicks
    let t1 := afterTag.dropWhile isPySpace
    let r := t1.reverse
    if "```".data.isPrefixOf r then ⟨((r.drop 3).dropWhile isPySpace).reverse⟩
    else ⟨t1⟩
  else s

/-- The bracket-matching extraction `re.search(r'\[[\s\S]*\]', text)`:
the substring from the first `[` that precedes the last `]` up to that
last `]` (greedy match, leftmost start). -/
def extractArray (s : List Char) : Option (List Char) :=
  match s.findIdx? (fun c => c = '['), s.reverse.findIdx? (fun c => c = ']') with
  | some i, some k =>
    let j := s.length - 1 - k
    if i < j then some ((s.drop i).take (j - i + 1)) else none
  | _, _ => none

/-- `item.get("id")` on a parsed JSON object; duplicate keys follow
`json.loads` semantics (last occurrence wins). -/
def objGet (fields : List (String × Json)) (key : String) : Option Json :=
  (fields.reverse.find? (fun kv => kv.1 == key)).map Prod.snd

def isObj : Json → Bool
  | Json.obj _ => true
  | _ => false

/-- `paper_map = {p.id: p for p in papers}` lookup (last id occurrence
wins, as dict comprehension overwrites). -/
def paperMapGet (papers : List Paper) (pid : ℤ) : Option Paper :=
  papers.reverse.find? (fun p => p.id == pid)

/-- Consumption of the parsed rankings: slice to `max_select`, iterate; a
non-object item raises (`item.get`) and a non-list value raises at the
slice, both caught by the outer handler — identity fallback; objects whose
`id` is absent or matches no pool paper are skipped; if nothing matched,
fall back. -/
def useRankings (papers : List Paper) (max_select : ℕ) (rankings : Json) : List Paper :=
  match rankings with
  | Json.arr items =>
    let sliced := items.take max_select
    if sliced.all isObj then
      let ranked := sliced.filterMap (fun item =>
        match item with
        | Json.obj fields =>
          match objGet fields "id" with
          | some (Json.num pid) => paperMapGet papers pid
          | _ => none
        | _ => none)
      if ranked.isEmpty then papers.take max_select else ranked
    else papers.take max_select
  | _ => papers.take max_select

/-- Translation of `PaperCurator.rank_papers`, parametric in the JSON
parsing function. -/
def rankPapersWith (loads : String → Option Json) (papers : List Paper)
    (max_select : ℕ) (response : Except ExnInfo String) : List Paper :=
  if papers = [] then []
  else if papers.length ≤ max_select then papers
  else
    match response with
    | Except.error _ => papers.take max_select
    | Except.ok content =>
      let result_text := stripFences (pyStrip content)
      match loads result_text with
      | some rankings => useRankings papers max_select rankings
      | none =>
        match extractArray result_text.data with
        | some sub =>
          match loads ⟨sub⟩ with
          | some rankings => useRankings papers max_select rankings
          | none => papers.take max_select
        | none => papers.take max_select

/-- `rank_papers` as shipped: the adapter over `json.loads`. -/
def rank_papers (papers : List Paper) (max_select : ℕ)
    (response : Except ExnInfo String) : List Paper :=
  rankPapersWith json_loads papers max_select response

/-- Whether one parsed ranking item would contribute a paper: it is an
object whose `id` is an integer matching some pool paper. -/
def itemContributes (papers : List Paper) (item : Json) : Bool :=
  match item with
  | Json.obj fields =>
    match objGet fields "id" with
    | some (Json.num pid) => papers.any (fun p => p.id == pid)
    | _ => false
  | _ => false

theorem useRankings_fallback_of_no_contribution (papers : List Paper) (k : ℕ)
    (j : Json) (hnc : ∀ items, j = Json.arr items →
      ∀ it ∈ items, itemContributes papers it = false) :
    useRankings papers k j = papers.take k := by
  rcases j with _ | b | n | s | items | fields
  · rfl
  · rfl
  · rfl
  · rfl
  · unfold useRankings
    dsimp only
    by_cases hobj : (items.take k).all isObj
    · rw [if_pos hobj]
      have hempty : (items.take k).filterMap (fun item =>
          match item with
          | Json.obj fields =>
            match objGet fields "id" with
            | some (Json.num pid) => paperMapGet papers pid
            | _ => none
          | _ => none) = [] := by
        rw [List.filterMap_eq_nil]
        intro it hit
        have hmem : it ∈ items := List.mem_of_mem_take hit
        have hc := hnc items rfl it hmem
        rcases it with _ | b | n | s | its | fields
        · rfl
        · rfl
        · rfl
        · rfl
        · rfl
        · simp only [itemContributes] at hc
          rcases hg : objGet fields "id" with _ | jv
          · simp [hg]
          · rcases jv with _ | b' | pid | s' | its' | flds'
            · simp [hg]
            · simp [hg]
            · rw [hg] at hc
              simp only [hg]
              have : papers.any (fun p => p.id == pid) = false := hc
              unfold paperMapGet
              rw [List.find?_eq_none]
              intro p hp
              have hpm : p ∈ papers := List.mem_reverse.mp hp
              have := List.any_eq_false.mp this p hpm
              simpa using this
            · simp [hg]
            · simp [hg]
            · simp [hg]
      simp [hempty]
    · rw [if_neg hobj]
  · rfl

/-- C3: with a pool larger than `max_select`, the adapter returns the
first `max_select` pool items unchanged whenever the service call raises,
or the response fails to parse under both strategies (direct parse after
fence stripping, then bracket-extracted substring), or the parsed value
yields no contributing item (zero returned IDs match the pool).  Holds
for any parsing function, in particular `json_loads`. -/
theorem claim_C3_rank_papers_fallback (loads : String → Option Json)
    (papers : List Paper) (max_select : ℕ) (response : Except ExnInfo String)
    (hlen : max_select < papers.length) :
    (∀ e, response = Except.error e →
      rankPapersWith loads papers max_select response = papers.take max_select) ∧
    (∀ content, response = Except.ok content →
      loads (stripFences (pyStrip content)) = none →
      (∀ sub, extractArray (stripFences (pyStrip content)).data = some sub →
        loads ⟨sub⟩ = none) →
      rankPapersWith loads papers max_select response = papers.take max_select) ∧
    (∀ content j, response = Except.ok content →
      loads (stripFences (pyStrip content)) = some j →
      (∀ items, j = Json.arr items → ∀ it ∈ items, itemContributes papers it = false) →
      rankPapersWith loads papers max_select response = papers.take max_select) := by
  have hne : papers ≠ [] := by
    intro h
    rw [h] at hlen
    simp at hlen
  have hnle : ¬ papers.length ≤ max_select := not_le.mpr hlen
  refine ⟨?_, ?_, ?_⟩
  · intro e he
    subst he
    unfold rankPapersWith
    rw [if_neg hne, if_neg hnle]
  · intro content he hl hex
    subst he
    unfold rankPapersWith
    rw [if_neg hne, if_neg hnle]
    simp only [hl]
    rcases hx : extractArray (stripFences (pyStrip content)).data with _ | sub
    · rfl
    · simp only [hex sub hx]
  · intro content j he hl hnc
    subst he
    unfold rankPapersWith
    rw [if_neg hne, if_neg hnle]
    simp only [hl]
    exact useRankings_fallback_of_no_contribution papers max_select j hnc

theorem mem_useRankings (papers : List Paper) (k : ℕ) (j : Json) :
    ∀ p ∈ useRankings papers k j, p ∈ papers := by
  have htake : ∀ p ∈ papers.take k, p ∈ papers := fun p hp => List.mem_of_mem_take hp
  rcases j with _ | b | n | s | items | fields
  · exact htake
  · exact htake
  · exact htake
  · exact htake
  · unfold useRankings
    dsimp only
    by_cases hobj : (items.take k).all isObj
    · rw [if_pos hobj]
      by_cases hemp : ((items.take k).filterMap (fun item =>
          match item with
          | Json.obj fields =>
            match objGet fields "id" with
            | some (Json.num pid) => paperMapGet papers pid
            | _ => none
          | _ => none)).isEmpty
      · simp only [hemp, if_pos]
        exact htake
      · simp only [hemp, if_neg, Bool.false_eq_true, not_false_iff]
        intro p hp
        obtain ⟨it, _, hf⟩ := List.mem_filterMap.mp hp
        rcases it with _ | b | n | s | its | fields
        · simp at hf
        · simp at hf
        · simp at hf
        · simp at hf
        · simp at hf
        · simp only at hf
          rcases hg : objGet fields "id" with _ | jv
          · rw [hg] at hf
            simp at hf
          · rw [hg] at hf
            rcases jv with _ | b' | pid | s' | its' | flds'
            · simp at hf
            · simp at hf
            · simp only at hf
              have := List.mem_of_find?_eq_some hf
              exact List.mem_reverse.mp this
            · simp at hf
            · simp at hf
            · simp at hf
    · rw [if_neg hobj]
      exact htake
  · exact htake

theorem useRankings_length_le (papers : List Paper) (k : ℕ) (j : Json) :
    (useRankings papers k j).length ≤ k := by
  have htake : (papers.take k).length ≤ k := by
    rw [List.length_take]
    exact min_le_left _ _
  rcases j with _ | b | n | s | items | fields
  · exact htake
  · exact htake
  · exact htake
  · exact htake
  · unfold useRankings
    dsimp only
    by_cases hobj : (items.take k).all isObj
    · rw [if_pos hobj]
      by_cases hemp : ((items.take k).filterMap (fun item =>
          match item with
          | Json.obj fields =>
            match objGet fields "id" with
            | some (Json.num pid) => paperMapGet papers pid
            | _ => none
          | _ => none)).isEmpty
      · simp only [hemp, if_pos]
        exact htake
      · simp only [hemp, if_neg, Bool.false_eq_true, not_false_iff]
        calc ((items.take k).filterMap _).length ≤ (items.take k).length :=
              List.length_filterMap_le _ _
        _ ≤ k := by rw [List.length_take]; exact min_le_left _ _
    · rw [if_neg hobj]
      exact htake
  · exact htake

/-- C9: whatever the parser and the response, every returned paper is an
element of the input pool; a pool of at most `max_select` papers (the
empty pool included) is returned unchanged without any service use; and a
larger pool yields at most `max_select` papers. -/
theorem claim_C9_rank_papers_bounds (loads : String → Option Json)
    (papers : List Paper) (max_select : ℕ) (response : Except ExnInfo String) :
    (∀ p ∈ rankPapersWith loads papers max_select response, p ∈ papers) ∧
    (papers.length ≤ max_select →
      rankPapersWith loads papers max_select response = papers) ∧
    (papers = [] → rankPapersWith loads papers max_select response = []) ∧
    (max_select < papers.length →
      (rankPapersWith loads papers max_select response).length ≤ max_select) := by
  have htake : ∀ p ∈ papers.take max_select, p ∈ papers :=
    fun p hp => List.mem_of_mem_take hp
  refine ⟨?_, ?_, ?_, ?_⟩
  · intro p hp
    unfold rankPapersWith at hp
    by_cases hne : papers = []
    · rw [if_pos hne] at hp
      simp at hp
    · rw [if_neg hne] at hp
      by_cases hle : papers.length ≤ max_select
      · rw [if_pos hle] at hp
        exact hp
      · rw [if_neg hle] at hp
        rcases response with e | content
        · exact htake p hp
        · simp only at hp
          rcases hl : loads (stripFences (pyStrip content)) with _ | j
          · rcases hx : extractArray (stripFences (pyStrip content)).data with _ | sub
            · simp only [hl, hx] at hp
              exact htake p hp
            · rcases hl2 : loads ⟨sub⟩ with _ | j2
              · simp only [hl, hx, hl2] at hp
                exact htake p hp
              · simp only [hl, hx, hl2] at hp
                exact mem_useRankings papers max_select j2 p hp
          · simp only [hl] at hp
            exact mem_useRankings papers max_select j p hp
  · intro hle
    unfold rankPapersWith
    by_cases hne : papers = []
    · rw [if_pos hne, hne]
    · rw [if_neg hne, if_pos hle]
  · intro hne
    unfold rankPapersWith
    rw [if_pos hne]
  · intro hlt
    have hne : papers ≠ [] := by
      intro h
      rw [h] at hlt
      simp at hlt
    have hnle : ¬ papers.length ≤ max_select := not_le.mpr hlt
    have htl : (papers.take max_select).length ≤ max_select := by
      rw [List.length_take]
      exact min_le_left _ _
    unfold rankPapersWith
    rw [if_neg hne, if_neg hnle]
    rcases response with e | content
    · exact htl
    · simp only
      rcases hl : loads (stripFences (pyStrip content)) with _ | j
      · rcases hx : extractArray (stripFences (pyStrip content)).data with _ | sub
        · simp only [hl, hx]
          exact htl
        · rcases hl2 : loads ⟨sub⟩ with _ | j2
          · simp only [hl, hx, hl2]
            exact htl
          · simp only [hl, hx, hl2]
            exact useRankings_length_le papers max_select j2
      · simp only [hl]
        exact useRankings_length_le papers max_select j

theorem claim_C3_rank_papers_fallback_witness :
    rank_papers [wPaperA, wPaperB] 1 (Except.ok "") = [wPaperA] ∧
    rank_papers [wPaperA, wPaperB] 1 (Except.ok "[\x7b\"id\": 1") = [wPaperA] ∧
    rank_papers [wPaperA, wPaperB] 1
      (Except.error { name := "APIError", msg := "timeout" }) = [wPaperA] ∧
    rank_papers [wPaperA, wPaperB] 1
      (Except.ok "```json\n[\x7b\"id\": 2, \"score\": 9, \"reason\": \"x\"\x7d]\n```") =
      [wPaperB] := by
  have hlen : (1 : ℕ) < ([wPaperA, wPaperB] : List Paper).length := by decide
  refine ⟨?_, ?_, ?_, by decide⟩
  · have h := (claim_C3_rank_papers_fallback json_loads [wPaperA, wPaperB] 1
      (Except.ok "") hlen).2.1 "" rfl (by rfl)
      (by intro sub hsub; simp [extractArray, pyStrip, stripFences, isPySpace] at hsub)
    simpa using h
  · have h := (claim_C3_rank_papers_fallback json_loads [wPaperA, wPaperB] 1
      (Except.ok "[\x7b\"id\": 1") hlen).2.1 "[\x7b\"id\": 1" rfl (by rfl)
      (by intro sub hsub; simp [extractArray, pyStrip, stripFences, isPySpace] at hsub)
    simpa using h
  · have h := (claim_C3_rank_papers_fallback json_loads [wPaperA, wPaperB] 1
      (Except.error { name := "APIError", msg := "timeout" }) hlen).1
      { name := "APIError", msg := "timeout" } rfl
    simpa using h

theorem claim_C9_rank_papers_bounds_witness :
    rank_papers [wPaperA] 5 (Except.ok "") = [wPaperA] ∧
    rank_papers ([] : List Paper) 5 (Except.ok "junk") = [] ∧
    (rank_papers [wPaperA, wPaperB] 1 (Except.ok "nonsense")).length ≤ 1 ∧
    wPaperB ∈ rank_papers [wPaperA, wPaperB] 1
      (Except.ok "```json\n[\x7b\"id\": 2, \"score\": 9, \"reason\": \"x\"\x7d]\n```") := by
  refine ⟨?_, ?_, ?_, ?_⟩
  · exact (claim_C9_rank_papers_bounds json_loads [wPaperA] 5 (Except.ok "")).2.1 (by decide)
  · exact (claim_C9_rank_papers_bounds json_loads [] 5 (Except.ok "junk")).2.2.1 rfl
  · exact (claim_C9_rank_papers_bounds json_loads [wPaperA, wPaperB] 1
      (Except.ok "nonsense")).2.2.2 (by decide)
  · have h := (claim_C9_rank_papers_bounds json_loads [wPaperA, wPaperB] 1
      (Except.ok "```json\n[\x7b\"id\": 2, \"score\": 9, \"reason\": \"x\"\x7d]\n```")).1
    have hm : wPaperB ∈ rank_papers [wPaperA, wPaperB] 1
        (Except.ok "```json\n[\x7b\"id\": 2, \"score\": 9, \"reason\": \"x\"\x7d]\n```") := by
      decide
    exact hm

/-!
## Select/produce job — `run_podcast_job` (`app/cron/tasks/podcast.py`)

The job is the `track_cron_run`-wrapped body of lines 134–209.  World
state is the episodes table, the papers table and the cron-run log.
Configuration (`settings.PAPERS_PER_EPISODE`,
`settings.MAX_PAPERS_FOR_RANKING`), `date.today()`, the traceback text,
the two `random.choices` streams, the LLM call of the curator and the
`generate_episode` production service are the environment.  The
idempotency lookup `scalar_one_or_none` returns the sole episode dated
today, `None` when there is none, and raises `MultipleResultsFound`
otherwise.  `generate_episode` constructs the episode row with
`episode_date` equal to the date it is passed (`date.today()`), and
`mark_papers_used` flips `is_used_in_episode` on the selected ids.
-/

structure Episode where
  id : ℤ
  episode_date : ℤ
  title : String
  audio_url : Option String
deriving DecidableEq, Repr

/-- The fields of the episode row that the production collaborator
(`PodcastGenerator.generate_episode` and its services) determines. -/
structure EpisodeContent where
  id : ℤ
  title : String
  audio_url : Option String
deriving DecidableEq, Repr

structure PodcastState where
  episodes : List Episode
  papers : List Paper
  cronRuns : List CronRunRec
deriving DecidableEq, Repr

structure PodcastEnv where
  today : ℤ
  tb : String
  papersPerEpisode : ℕ
  maxPapersForRanking : ℕ
  rand1 : ℕ → ℕ
  rand2 : ℕ → ℕ
  llm : Except ExnInfo String
  produce : List ℤ → ℤ → Except ExnInfo EpisodeContent

/-- The `SELECT ... WHERE episode_date == today` of the idempotency check. -/
def episodesToday (episodes : List Episode) (today : ℤ) : List Episode :=
  episodes.filter (fun e => e.episode_date == today)

/-- Descending insertion for `ORDER BY publication_date DESC`. -/
def insertByDateDesc (p : Paper) : List Paper → List Paper
  | [] => [p]
  | q :: t =>
    if q.publication_date < p.publication_date then p :: q :: t
    else q :: insertByDateDesc p t

/-- Translation of `get_unused_curated_papers`: selected, not yet used,
newest first. -/
def get_unused_curated_papers (papers : List Paper) : List Paper :=
  (papers.filter (fun p => p.is_selected && !p.is_used_in_episode)).foldr insertByDateDesc []

/-- The available pool of the job (line 151). -/
def podcastPool (st : PodcastState) : List Paper :=
  get_unused_curated_papers st.papers

/-- The pre-filter of lines 162–164: `weighted_select` down to
`MAX_PAPERS_FOR_RANKING` only when the pool exceeds it. -/
def podcastPrefiltered (env : PodcastEnv) (st : PodcastState) : List Paper :=
  if env.maxPapersForRanking < (podcastPool st).length then
    weighted_select env.rand1 (podcastPool st) env.maxPapersForRanking
  else podcastPool st

/-- Lines 167–172: curator reranking to 10, then `weighted_select` down to
`PAPERS_PER_EPISODE`. -/
def podcastSelected (env : PodcastEnv) (st : PodcastState) : List Paper :=
  weighted_select env.rand2
    (rank_papers (podcastPrefiltered env st) 10 env.llm) env.papersPerEpisode

/-- The tracked body of `run_podcast_job` (the `async with` block). -/
def podcastBody (env : PodcastEnv) (dry_run : Bool) :
    TrackerSt → PodcastState × ℕ →
      TrackerSt × (PodcastState × ℕ) × Except ExnInfo (List (String × JVal)) :=
  fun tr s =>
    match episodesToday s.1.episodes env.today with
    | [existing] =>
      ({ tr with status := some "skipped",
                 result := [("reason", JVal.s "already_exists"),
                            ("episode_id", JVal.i existing.id)] },
       s,
       Except.ok [("status", JVal.s "already_exists"),
                  ("episode_id", JVal.i existing.id)])
    | [] =>
      if podcastPool s.1 = [] then
        ({ tr with status := some "no_papers",
                   result := [("reason", JVal.s "no_papers")] },
         s, Except.ok [("status", JVal.s "no_papers")])
      else
        let selected := podcastSelected env s.1
        if dry_run then
          ({ tr with status := some "dry_run",
                     result := [("papers", JVal.i selected.length)] },
           s, Except.ok [("status", JVal.s "dry_run"),
                         ("papers", JVal.i selected.length)])
        else
          match env.produce (selected.map Paper.id) env.today with
          | Except.error e => (tr, (s.1, s.2 + 1), Except.error e)
          | Except.ok epc =>
            let ep : Episode := { id := epc.id, episode_date := env.today,
                                  title := epc.title, audio_url := epc.audio_url }
            let res := [("status", JVal.s "ok"), ("episode_id", JVal.i ep.id),
                        ("title", JVal.s ep.title), ("papers", JVal.i selected.length)]
            ({ tr with result := res },
             ({ episodes := s.1.episodes ++ [ep],
                papers := s.1.papers.map (fun p =>
                  if p.id ∈ selected.map Paper.id then
                    { p with is_used_in_episode := true }
                  else p),
                cronRuns := s.1.cronRuns }, s.2 + 1),
             Except.ok res)
    | _ :: _ :: _ =>
      (tr, s,
       Except.error { name := "MultipleResultsFound", msg := "episode_date" })

/-- Translation of `run_podcast_job`: the body under `track_cron_run`,
with the written run records appended to the log; the middle component
counts production calls. -/
def run_podcast_job (env : PodcastEnv) (dry_run : Bool) (st : PodcastState) :
    PodcastState × ℕ × Except ExnInfo (List (String × JVal)) :=
  match track_cron_run "podcast" env.today env.tb (podcastBody env dry_run) (st, 0) with
  | ((st', calls), recs, out) =>
    ({ episodes := st'.episodes, papers := st'.papers,
       cronRuns := st'.cronRuns ++ recs }, calls, out)

theorem run_podcast_job_skip (env : PodcastEnv) (dry : Bool) (st : PodcastState)
    (e : Episode) (he : episodesToday st.episodes env.today = [e]) :
    run_podcast_job env dry st =
      ({ episodes := st.episodes, papers := st.papers,
         cronRuns := st.cronRuns ++
          [{ job_name := "podcast", run_date := env.today, status := "skipped",
             result := some [("reason", JVal.s "already_exists"),
                             ("episode_id", JVal.i e.id)],
             error_message := none }] }, 0,
       Except.ok [("status", JVal.s "already_exists"),
                  ("episode_id", JVal.i e.id)]) := by
  unfold run_podcast_job track_cron_run podcastBody
  dsimp only
  rw [he]
  simp [trackerFinish, initTracker]

theorem run_podcast_job_multiple (env : PodcastEnv) (dry : Bool) (st : PodcastState)
    (e1 e2 : Episode) (rest : List Episode)
    (he : episodesToday st.episodes env.today = e1 :: e2 :: rest) :
    run_podcast_job env dry st =
      ({ episodes := st.episodes, papers := st.papers,
         cronRuns := st.cronRuns ++
          [{ job_name := "podcast", run_date := env.today, status := "failed",
             result := none,
             error_message := some ("MultipleResultsFound" ++ ": " ++ "episode_date"
               ++ "\n\n" ++ env.tb) }] }, 0,
       Except.error { name := "MultipleResultsFound", msg := "episode_date" }) := by
  unfold run_podcast_job track_cron_run podcastBody
  dsimp only
  rw [he]
  simp [trackerFinish, initTracker]

theorem run_podcast_job_no_papers (env : PodcastEnv) (dry : Bool) (st : PodcastState)
    (he : episodesToday st.episodes env.today = [])
    (hpool : podcastPool st = []) :
    run_podcast_job env dry st =
      ({ episodes := st.episodes, papers := st.papers,
         cronRuns := st.cronRuns ++
          [{ job_name := "podcast", run_date := env.today, status := "no_papers",
             result := some [("reason", JVal.s "no_papers")],
             error_message := none }] }, 0,
       Except.ok [("status", JVal.s "no_papers")]) := by
  unfold run_podcast_job track_cron_run podcastBody
  dsimp only
  rw [he, if_pos hpool]
  simp [trackerFinish, initTracker]

theorem run_podcast_job_dry (env : PodcastEnv) (st : PodcastState)
    (he : episodesToday st.episodes env.today = [])
    (hpool : ¬ podcastPool st = []) :
    run_podcast_job env true st =
      ({ episodes := st.episodes, papers := st.papers,
         cronRuns := st.cronRuns ++
          [{ job_name := "podcast", run_date := env.today, status := "dry_run",
             result := some [("papers", JVal.i (podcastSelected env st).length)],
             error_message := none }] }, 0,
       Except.ok [("status", JVal.s "dry_run"),
                  ("papers", JVal.i (podcastSelected env st).length)]) := by
  unfold run_podcast_job track_cron_run podcastBody
  dsimp only
  rw [he, if_neg hpool]
  simp [trackerFinish, initTracker]

theorem run_podcast_job_prod_error (env : PodcastEnv) (st : PodcastState)
    (he : episodesToday st.episodes env.today = [])
    (hpool : ¬ podcastPool st = []) (ex : ExnInfo)
    (hprod : env.produce ((podcastSelected env st).map Paper.id) env.today =
      Except.error ex) :
    run_podcast_job env false st =
      ({ episodes := st.episodes, papers := st.papers,
         cronRuns := st.cronRuns ++
          [{ job_name := "podcast", run_date := env.today, status := "failed",
             result := none,
             error_message := some (ex.name ++ ": " ++ ex.msg ++ "\n\n" ++ env.tb) }] },
       1, Except.error ex) := by
  unfold run_podcast_job track_cron_run podcastBody
  dsimp only
  rw [he, if_neg hpool, hprod]
  simp [trackerFinish, initTracker]

theorem run_podcast_job_prod_ok (env : PodcastEnv) (st : PodcastState)
    (he : episodesToday st.episodes env.today = [])
    (hpool : ¬ podcastPool st = []) (epc : EpisodeContent)
    (hprod : env.produce ((podcastSelected env st).map Paper.id) env.today =
      Except.ok epc) :
    run_podcast_job env false st =
      ({ episodes := st.episodes ++
          [{ id := epc.id, episode_date := env.today, title := epc.title,
             audio_url := epc.audio_url }],
         papers := st.papers.map (fun p =>
          if p.id ∈ (podcastSelected env st).map Paper.id then
            { p with is_used_in_episode := true }
          else p),
         cronRuns := st.cronRuns ++
          [{ job_name := "podcast", run_date := env.today, status := "success",
             result := some [("status", JVal.s "ok"), ("episode_id", JVal.i epc.id),
                             ("title", JVal.s epc.title),
                             ("papers", JVal.i (podcastSelected env st).length)],
             error_message := none }] },
       1,
       Except.ok [("status", JVal.s "ok"), ("episode_id", JVal.i epc.id),
                  ("title", JVal.s epc.title),
                  ("papers", JVal.i (podcastSelected env st).length)]) := by
  unfold run_podcast_job track_cron_run podcastBody
  dsimp only
  rw [he, if_neg hpool, hprod]
  simp [trackerFinish, initTracker]

theorem run_podcast_job_success_shape (env : PodcastEnv) (dry : Bool)
    (st : PodcastState) (rec : CronRunRec)
    (hrec : (run_podcast_job env dry st).1.cronRuns = st.cronRuns ++ [rec])
    (hsucc : rec.status = "success") :
    ∃ ep : Episode,
      (run_podcast_job env dry st).1.episodes = st.episodes ++ [ep] ∧
      ep.episode_date = env.today ∧
      episodesToday st.episodes env.today = [] := by
  rcases hep : episodesToday st.episodes env.today with _ | ⟨e1, rest⟩
  · by_cases hpool : podcastPool st = []
    · rw [run_podcast_job_no_papers env dry st hep hpool] at hrec
      simp only [List.append_cancel_left_eq, List.cons.injEq, and_true] at hrec
      rw [← hrec] at hsucc
      simp at hsucc
    · cases dry with
      | true =>
        rw [run_podcast_job_dry env st hep hpool] at hrec
        simp only [List.append_cancel_left_eq, List.cons.injEq, and_true] at hrec
        rw [← hrec] at hsucc
        simp at hsucc
      | false =>
        rcases hprod : env.produce ((podcastSelected env st).map Paper.id) env.today
          with ex | epc
        · rw [run_podcast_job_prod_error env st hep hpool ex hprod] at hrec
          simp only [List.append_cancel_left_eq, List.cons.injEq, and_true] at hrec
          rw [← hrec] at hsucc
          simp at hsucc
        · refine ⟨{ id := epc.id, episode_date := env.today, title := epc.title,
                    audio_url := epc.audio_url }, ?_, rfl, hep ▸ rfl⟩
          rw [run_podcast_job_prod_ok env st hep hpool epc hprod]
  · rcases rest with _ | ⟨e2, rest2⟩
    · rw [run_podcast_job_skip env dry st e1 hep] at hrec
      simp only [List.append_cancel_left_eq, List.cons.injEq, and_true] at hrec
      rw [← hrec] at hsucc
      simp at hsucc
    · rw [run_podcast_job_multiple env dry st e1 e2 rest2 hep] at hrec
      simp only [List.append_cancel_left_eq, List.cons.injEq, and_true] at hrec
      rw [← hrec] at hsucc
      simp at hsucc

/-- C6: if one invocation of the select/produce job for a logical date
finished with a run record of status `success` (so it produced and stored
the episode of that date), then a second invocation for the same logical
date changes neither the episodes nor the papers, performs zero production
calls, and records exactly one run of status `skipped` whose result
references the existing episode. -/
theorem claim_C6_idempotent_second_run (env1 env2 : PodcastEnv) (dry1 dry2 : Bool)
    (st0 : PodcastState) (rec : CronRunRec)
    (hdate : env2.today = env1.today)
    (hrec : (run_podcast_job env1 dry1 st0).1.cronRuns = st0.cronRuns ++ [rec])
    (hsucc : rec.status = "success") :
    (run_podcast_job env2 dry2 ((run_podcast_job env1 dry1 st0).1)).2.1 = 0 ∧
    (run_podcast_job env2 dry2 ((run_podcast_job env1 dry1 st0).1)).1.episodes =
      ((run_podcast_job env1 dry1 st0).1).episodes ∧
    (run_podcast_job env2 dry2 ((run_podcast_job env1 dry1 st0).1)).1.papers =
      ((run_podcast_job env1 dry1 st0).1).papers ∧
    ∃ ep : Episode,
      ep ∈ ((run_podcast_job env1 dry1 st0).1).episodes ∧
      ep.episode_date = env2.today ∧
      (run_podcast_job env2 dry2 ((run_podcast_job env1 dry1 st0).1)).1.cronRuns =
        ((run_podcast_job env1 dry1 st0).1).cronRuns ++
          [{ job_name := "podcast", run_date := env2.today, status := "skipped",
             result := some [("reason", JVal.s "already_exists"),
                             ("episode_id", JVal.i ep.id)],
             error_message := none }] ∧
      (run_podcast_job env2 dry2 ((run_podcast_job env1 dry1 st0).1)).2.2 =
        Except.ok [("status", JVal.s "already_exists"),
                   ("episode_id", JVal.i ep.id)] := by
  obtain ⟨ep, heps, hdate1, hnone⟩ :=
    run_podcast_job_success_shape env1 dry1 st0 rec hrec hsucc
  have hep2 : episodesToday ((run_podcast_job env1 dry1 st0).1).episodes env2.today =
      [ep] := by
    rw [heps]
    unfold episodesToday at hnone ⊢
    rw [hdate, List.filter_append, hnone]
    simp [hdate1]
  have hskip := run_podcast_job_skip env2 dry2 ((run_podcast_job env1 dry1 st0).1)
    ep hep2
  rw [hskip]
  refine ⟨rfl, rfl, rfl, ep, ?_, ?_, rfl, rfl⟩
  · rw [heps]
    simp
  · rw [hdate]
    exact hdate1

def wEnv : PodcastEnv :=
  { today := 100, tb := "tb", papersPerEpisode := 3, maxPapersForRanking := 30,
    rand1 := fun _ => 0, rand2 := fun _ => 0, llm := Except.ok "",
    produce := fun _ _ =>
      Except.ok { id := 50, title := "Ep", audio_url := some "url" } }

def wSt0 : PodcastState := { episodes := [], papers := [wPaperA], cronRuns := [] }

def wEp : Episode :=
  { id := 50, episode_date := 100, title := "Ep", audio_url := some "url" }

theorem claim_C6_idempotent_second_run_witness :
    (run_podcast_job wEnv false ((run_podcast_job wEnv false wSt0).1)).2.1 = 0 ∧
    (run_podcast_job wEnv false ((run_podcast_job wEnv false wSt0).1)).1.episodes =
      ((run_podcast_job wEnv false wSt0).1).episodes ∧
    (run_podcast_job wEnv false ((run_podcast_job wEnv false wSt0).1)).1.papers =
      ((run_podcast_job wEnv false wSt0).1).papers ∧
    (run_podcast_job wEnv false ((run_podcast_job wEnv false wSt0).1)).1.cronRuns =
      ((run_podcast_job wEnv false wSt0).1).cronRuns ++
        [{ job_name := "podcast", run_date := 100, status := "skipped",
           result := some [("reason", JVal.s "already_exists"),
                           ("episode_id", JVal.i 50)],
           error_message := none }] := by
  have h := claim_C6_idempotent_second_run wEnv wEnv false false wSt0
    { job_name := "podcast", run_date := 100, status := "success",
      result := some [("status", JVal.s "ok"), ("episode_id", JVal.i 50),
                      ("title", JVal.s "Ep"), ("papers", JVal.i 1)],
      error_message := none }
    rfl (by decide) rfl
  obtain ⟨ep, hmem, hd, hcr, hout⟩ := h.2.2.2
  have heps : ((run_podcast_job wEnv false wSt0).1).episodes = [wEp] := by decide
  rw [heps] at hmem
  have hep : ep = wEp := List.mem_singleton.mp hmem
  subst hep
  exact ⟨h.1, h.2.1, h.2.2.1, hcr⟩
